import Mathlib

/-!
Verification development for `generate_ingress_reports.py`, a batch utility
that reads cached cluster ingress snapshots (JSON), extracts one normalized
record per ingress item, renders a pipe-table report per cluster, and prints
a cross-cluster completeness summary.

The Python source is shallowly embedded below: JSON documents become a fixed
data model (the shape the spec's §3 describes), dictionary `.get` chains with
defaults become `Option` fields with `getD`, the Python string-set used for
ports becomes a duplicate-free list in insertion order (Python set enumeration
order is unspecified; all theorems stated about the joined ports string are
order-insensitive), and exceptions become `Except` values.
-/

namespace ClusterReports

/-- One HTTP path under a rule.  `number` models the chain
`path.get('backend', {}).get('service', {}).get('port', {}).get('number', '80')`:
absence of any link of the chain is modelled as `none` (the code then uses
the default `'80'`); a present numeric port is `some n`. -/
structure HttpPath where
  number : Option Nat
deriving DecidableEq

/-- One rule of `item['spec']['rules']`.  `host` models `rule.get('host', 'N/A')`
(`none` when the key is absent); `paths` models `rule.get('http', {}).get('paths', [])`
(absence of `http` or `paths` collapses to the empty list, as in the code). -/
structure Rule where
  host : Option String
  paths : List HttpPath
deriving DecidableEq

/-- One entry of `item['status']['loadBalancer']['ingress']`; `ip` models
`lb.get('ip', 'N/A')`. -/
structure LBEntry where
  ip : Option String
deriving DecidableEq

/-- One element of `json_data['items']`.  `ns`/`name` are
`item['metadata']['namespace']` / `item['metadata']['name']` (required keys).
`hasTLS` models the membership test `'tls' in item.get('spec', {})`;
`rules` models `item.get('spec', {}).get('rules', [])`;
`lb` models `item.get('status', {}).get('loadBalancer', {}).get('ingress', [])`. -/
structure Item where
  ns : String
  name : String
  hasTLS : Bool
  rules : List Rule
  lb : List LBEntry
deriving DecidableEq

/-- A parsed snapshot document: `json_data['items']`. -/
structure Document where
  items : List Item
deriving DecidableEq

/-- Python `sep.join(l)`: empty for `[]`, the sole element for `[x]`,
and the elements interleaved with `sep` otherwise. -/
def joinSep (sep : String) : List String → String
  | [] => ""
  | [x] => x
  | x :: y :: t => x ++ sep ++ joinSep sep (y :: t)

/-- Python substring test `pat in s`. -/
def containsSubstr (s pat : String) : Bool :=
  decide (pat.data <:+: s.data)

/-- Python `s.endswith(suffix)`. -/
def strEndsWith (s suf : String) : Bool :=
  decide (suf.data <:+ s.data)

/-- `hosts = ", ".join(rule.get('host', 'N/A') for rule in item...rules)`. -/
def hostsStr (it : Item) : String :=
  joinSep ", " (it.rules.map (fun r => r.host.getD "N/A"))

/-- `address = ", ".join(lb.get('ip', 'N/A') for lb in item...ingress)`. -/
def addressStr (it : Item) : String :=
  joinSep ", " (it.lb.map (fun e => e.ip.getD "N/A"))

/-- `str(service_port)` for one path: the decimal rendering of an explicit
port number, or the default string `'80'` when the chain was absent. -/
def portStr (p : HttpPath) : String :=
  match p.number with
  | some n => toString n
  | none => "80"

/-- `s.add(x)` on the Python string set, modelled as a duplicate-free list
in insertion order. -/
def insertIfAbsent (acc : List String) (x : String) : List String :=
  if x ∈ acc then acc else acc ++ [x]

/-- The ports set built by the loop: seeded with `"443"` when `'tls' in spec`,
then every path's port string is added rule by rule, path by path. -/
def portsList (it : Item) : List String :=
  let init : List String := if it.hasTLS then insertIfAbsent [] "443" else []
  it.rules.foldl
    (fun acc r => r.paths.foldl (fun a p => insertIfAbsent a (portStr p)) acc) init

/-- `ports_str = ", ".join(ports) if ports else "80"`. -/
def portsStr (it : Item) : String :=
  if portsList it = [] then "80" else joinSep ", " (portsList it)

/-- The condition of `if 'N/A' in hosts or not hosts:` guarding the
missing-hosts warning. -/
def hostsWarn (it : Item) : Bool :=
  containsSubstr (hostsStr it) "N/A" || (hostsStr it == "")

/-- The condition of `if not address:` guarding the missing-address warning. -/
def addressWarn (it : Item) : Bool :=
  addressStr it == ""

/-- The condition of `if not ports_str:` guarding the missing-ports warning. -/
def portsWarn (it : Item) : Bool :=
  portsStr it == ""

/-- `extract_ingress_info`: one `[namespace, name, hosts, address, ports_str]`
record (a list of strings, as in the Python `append`) per item, in item order. -/
def extract_ingress_info (j : Document) : List (List String) :=
  j.items.map (fun it => [it.ns, it.name, hostsStr it, addressStr it, portsStr it])

/-- The header row passed to `tabulate`. -/
def headerRow : List String := ["Namespace", "Name", "Hosts", "Address", "Ports"]

/-- Modelled from the spec: the pipe-format row rendering of the external
`tabulate` library (not part of this repository), per §4.3: cells in record
order separated by pipes, written literally with no escaping or truncation. -/
def renderRow (cells : List String) : String :=
  "| " ++ joinSep " | " cells ++ " |"

/-- Modelled from the spec: the header/body separator line of the pipe table. -/
def separatorLine : String := "|---|---|---|---|---|"

/-- Modelled from the spec: `tabulate(ingress_info, headers, tablefmt="pipe")` —
header row, separator line, then one rendered row per record, joined by
newlines. -/
def renderTable (rows : List (List String)) : String :=
  joinSep "\n" (renderRow headerRow :: separatorLine :: rows.map renderRow)

/-- `generate_markdown_table`, returning the `markdown_content` string that the
Python function writes to `{cluster_name}_ingress.md` (the write itself is
modelled by the orchestrator's report list). -/
def generate_markdown_table (info : List (List String)) (cluster_name : String) : String :=
  "# Ingress Summary for Cluster: " ++ cluster_name ++ "\n\n" ++ renderTable info ++ "\n"

/-- Split a character list at every occurrence of `sep` (the separator is
dropped); always returns at least one segment, like Python `str.split`. -/
def splitCh (sep : Char) : List Char → List (List Char)
  | [] => [[]]
  | c :: rest =>
    match splitCh sep rest with
    | [] => [[c]]
    | h :: t => if c = sep then [] :: h :: t else (c :: h) :: t

/-- Modelled from the spec: the row parser of the hypothetical pipe-table
parser of §8's round-trip property — split the line at every pipe, drop the
segments outside the outer pipes, and strip the single padding space on each
side of every cell. -/
def parseRowLine (l : List Char) : List String :=
  (((splitCh '|' l).drop 1).dropLast).map (fun seg => ⟨(seg.drop 1).dropLast⟩)

/-- Modelled from the spec: the hypothetical report parser — split the
document into lines, drop the title line, the blank line, the header row and
the separator line, drop the trailing empty line, and parse each remaining
line as a table row. -/
def parseReport (s : String) : List (List String) :=
  (((splitCh '\n' s.data).drop 4).dropLast).map parseRowLine

/-- `cluster_name = filename.split("_")[0]`: the portion of the filename
before the first underscore. -/
def clusterName (s : String) : String :=
  ⟨s.data.takeWhile (fun c => c ≠ '_')⟩

/-- `cluster_prefix = cluster_name.split('-')[0]`: the portion of the cluster
name before the first hyphen. -/
def clusterGroup (s : String) : String :=
  ⟨(clusterName s).data.takeWhile (fun c => c ≠ '-')⟩

/-- `EXPECTED_CLUSTERS = {"cluster1", "cluster2"}`, modelled as a list. -/
def EXPECTED_CLUSTERS : List String := ["cluster1", "cluster2"]

/-- The Python exceptions the program can meet: `FileNotFoundError`,
`json.JSONDecodeError` and `PermissionError`, each carrying the offending
path. -/
inductive PyError where
  | fileNotFound (path : String)
  | jsonDecodeError (path : String)
  | permissionError (path : String)
deriving DecidableEq

/-- What one file of the input directory holds: a well-formed snapshot, a
malformed (non-JSON) body, or an unreadable file (permission denied). -/
inductive FileContent where
  | parsed (d : Document)
  | malformed
  | unreadable
deriving DecidableEq

/-- One directory entry: a file name and its content. -/
structure FileEntry where
  name : String
  content : FileContent
deriving DecidableEq

/-- `read_json_file`: parse the file, raising `json.JSONDecodeError` on a
malformed body and `PermissionError` on an unreadable file. -/
def read_json_file (f : FileEntry) : Except PyError Document :=
  match f.content with
  | .parsed d => .ok d
  | .malformed => .error (.jsonDecodeError f.name)
  | .unreadable => .error (.permissionError f.name)

/-- The state accumulated by the per-file loop of `process_all_clusters`:
the matching file names in processing order, the `processed_clusters` set
(insertion order), and the reports written, as `(output file name, content)`
pairs in write order. -/
structure Accum where
  processedFiles : List String
  processedClusters : List String
  reports : List (String × String)
deriving DecidableEq

/-- The loop body for one matching file. -/
def stepFile (acc : Accum) (fname : String) (d : Document) : Accum :=
  { processedFiles := acc.processedFiles ++ [fname]
    processedClusters := insertIfAbsent acc.processedClusters (clusterGroup fname)
    reports := acc.reports ++
      [(clusterName fname ++ "_ingress.md",
        generate_markdown_table (extract_ingress_info d) (clusterName fname))] }

/-- The first loop of `process_all_clusters`: for every listing entry ending
in `_ingress.json`, read and extract the snapshot and write the cluster
report; any exception aborts the run (partial side effects before the abort
are not needed by any claim and are discarded here). -/
def runFiles : List FileEntry → Accum → Except PyError Accum
  | [], acc => .ok acc
  | f :: rest, acc =>
    if strEndsWith f.name "_ingress.json" then
      match read_json_file f with
      | .error e => .error e
      | .ok d => runFiles rest (stepFile acc f.name d)
    else runFiles rest acc

/-- The issue lines printed for one cluster in the second scan. -/
def issueLinesFor (cname : String) (d : Document) : List String :=
  (d.items.filter (fun it => hostsWarn it)).map
    (fun it => "Cluster: " ++ cname ++ ", Namespace: " ++ it.ns ++ ", Name: " ++
      it.name ++ ", Hosts: " ++ hostsStr it ++ " (Warning: Hosts missing)")

/-- The second scan of `process_all_clusters`: re-read every matching file
and collect the hosts-issue lines. -/
def runIssues : List FileEntry → Except PyError (List String)
  | [] => .ok []
  | f :: rest =>
    if strEndsWith f.name "_ingress.json" then
      match read_json_file f with
      | .error e => .error e
      | .ok d =>
        match runIssues rest with
        | .error e => .error e
        | .ok ls => .ok (issueLinesFor (clusterName f.name) d ++ ls)
    else runIssues rest

/-- The confirmation line printed when no expected cluster is missing. -/
def confirmLine : String := "All expected clusters were processed."

/-- The warning line printed when expected clusters are missing. -/
def warnLine (missed : List String) : String :=
  "Warning: The following expected clusters were not processed: " ++ joinSep ", " missed

/-- Everything observable `process_all_clusters` produces on success. -/
structure Output where
  processedFiles : List String
  processedClusters : List String
  reports : List (String × String)
  summaryLine : String
  issueLines : List String
deriving DecidableEq

/-- `process_all_clusters`: listing a missing input directory raises
`FileNotFoundError` (from `os.listdir`); otherwise both scans run and the
completeness summary is computed as `EXPECTED_CLUSTERS - processed_clusters`
(the Python set difference, modelled as a filter of the expected list; its
arbitrary set enumeration order is modelled as the expected list's order). -/
def process_all_clusters (dirName : String) (fs : Option (List FileEntry)) :
    Except PyError Output :=
  match fs with
  | none => .error (.fileNotFound dirName)
  | some files =>
    match runFiles files ⟨[], [], []⟩ with
    | .error e => .error e
    | .ok acc =>
      match runIssues files with
      | .error e => .error e
      | .ok issues =>
        let missed := EXPECTED_CLUSTERS.filter (fun c => !(acc.processedClusters.contains c))
        .ok { processedFiles := acc.processedFiles
              processedClusters := acc.processedClusters
              reports := acc.reports
              summaryLine := if missed = [] then confirmLine else warnLine missed
              issueLines := issues }

/-- What the `__main__` driver produces: a completed run, or the handled
missing-directory message (printed instead of a stack trace). -/
inductive MainResult where
  | completed (o : Output)
  | handledError (msg : String)
deriving DecidableEq

/-- The message of the `except FileNotFoundError` handler:
`f"Error: {e}. The directory '{INFO_CACHE_DIR}' does not exist. Please check
the date or directory path."`, with `str(e)` modelled as CPython's usual
`FileNotFoundError` rendering for the directory. -/
def missingDirMessage (dirName : String) : String :=
  "Error: [Errno 2] No such file or directory: '" ++ dirName ++
    "'. The directory '" ++ dirName ++ "' does not exist. Please check the date or directory path."

/-- The `__main__` block: run `process_all_clusters`, catching exactly
`FileNotFoundError`; every other exception propagates. -/
def mainDriver (dirName : String) (fs : Option (List FileEntry)) :
    Except PyError MainResult :=
  match process_all_clusters dirName fs with
  | .ok o => .ok (.completed o)
  | .error (.fileNotFound _) => .ok (.handledError (missingDirMessage dirName))
  | .error e => .error e

/-- The file system after a list of writes, applied in order: a later write
to the same name overwrites the earlier content. -/
def applyWrites (ws : List (String × String)) : List (String × String) :=
  ws.foldl
    (fun fs w =>
      if fs.any (fun e => e.1 == w.1) then
        fs.map (fun e => if e.1 == w.1 then w else e)
      else fs ++ [w]) []

/-- The report list of a successful run, `[]` on a failed one. -/
def reportsOf (r : Except PyError Output) : List (String × String) :=
  match r with
  | .ok o => o.reports
  | .error _ => []

/-! ### Basic string lemmas -/

theorem string_eq_empty_iff (s : String) : s = "" ↔ s.data = [] := by
  cases s with
  | mk d =>
    constructor
    · intro h
      rw [h]
    · intro h
      simp only at h
      rw [h]

theorem toDigitsCore_ne_nil (b : Nat) :
    ∀ (f n : Nat) (ds : List Char), ds ≠ [] → Nat.toDigitsCore b f n ds ≠ [] := by
  intro f
  induction f with
  | zero => intro n ds h; simpa [Nat.toDigitsCore] using h
  | succ f ih =>
    intro n ds h
    simp only [Nat.toDigitsCore]
    split
    · simp
    · exact ih _ _ (by simp)

theorem natToString_ne_empty (n : Nat) : toString n ≠ "" := by
  intro h
  rw [string_eq_empty_iff] at h
  have hd : (toString n).data = Nat.toDigitsCore 10 (n + 1) n [] := rfl
  rw [hd] at h
  have : Nat.toDigitsCore 10 (n + 1) n [] ≠ [] := by
    simp only [Nat.toDigitsCore]
    split
    · simp
    · exact toDigitsCore_ne_nil 10 _ _ _ (by simp)
  exact this h

/-! ### `joinSep` lemmas -/

theorem joinSep_cons (s x : String) (l : List String) (h : l ≠ []) :
    joinSep s (x :: l) = x ++ s ++ joinSep s l := by
  cases l with
  | nil => exact absurd rfl h
  | cons y t => rfl

theorem joinSep_append_singleton (s x : String) (l : List String) (h : l ≠ []) :
    joinSep s (l ++ [x]) = joinSep s l ++ s ++ x := by
  induction l with
  | nil => exact absurd rfl h
  | cons a t ih =>
    cases t with
    | nil => rfl
    | cons b t2 =>
      rw [List.cons_append, joinSep_cons s a _ (by simp),
        joinSep_cons s a (b :: t2) (by simp), ih (by simp)]
      apply String.ext
      simp [String.data_append]

theorem joinSep_ne_empty (s : String) (l : List String)
    (h : ∀ x ∈ l, x ≠ "") (hl : l ≠ []) : joinSep s l ≠ "" := by
  cases l with
  | nil => exact absurd rfl hl
  | cons x t =>
    cases t with
    | nil => exact h x (by simp)
    | cons y t2 =>
      intro hc
      rw [string_eq_empty_iff] at hc
      rw [joinSep_cons s x (y :: t2) (by simp)] at hc
      simp only [String.data_append, List.append_eq_nil] at hc
      exact h x (by simp) (by rw [string_eq_empty_iff]; exact hc.1.1)

theorem joinSep_eq_empty_iff (s : String) (l : List String)
    (h : ∀ x ∈ l, x ≠ "") : joinSep s l = "" ↔ l = [] := by
  constructor
  · intro he
    by_contra hl
    exact joinSep_ne_empty s l h hl he
  · intro hl
    rw [hl]
    rfl

theorem mem_joinSep_data (s : String) (l : List String) (c : Char)
    (h : c ∈ (joinSep s l).data) : c ∈ s.data ∨ ∃ x ∈ l, c ∈ x.data := by
  induction l with
  | nil => simp [joinSep] at h
  | cons x t ih =>
    cases t with
    | nil =>
      right
      exact ⟨x, by simp, h⟩
    | cons y t2 =>
      rw [joinSep_cons s x (y :: t2) (by simp)] at h
      simp only [String.data_append, List.mem_append] at h
      rcases h with (hx | hs) | hj
      · exact Or.inr ⟨x, by simp, hx⟩
      · exact Or.inl hs
      · rcases ih hj with hs | ⟨z, hz, hc⟩
        · exact Or.inl hs
        · exact Or.inr ⟨z, by simp [hz], hc⟩

/-! ### Ports-set lemmas -/

theorem mem_insertIfAbsent (acc : List String) (x y : String) :
    y ∈ insertIfAbsent acc x ↔ y ∈ acc ∨ y = x := by
  unfold insertIfAbsent
  split
  · constructor
    · exact Or.inl
    · rintro (h | rfl)
      · exact h
      · assumption
  · simp

theorem nodup_insertIfAbsent (acc : List String) (x : String) (h : acc.Nodup) :
    (insertIfAbsent acc x).Nodup := by
  unfold insertIfAbsent
  split
  · exact h
  · simp_all [List.nodup_append]

theorem mem_foldl_insert {α : Type} (g : α → String) (l : List α)
    (acc : List String) (y : String) :
    y ∈ l.foldl (fun a p => insertIfAbsent a (g p)) acc ↔
      y ∈ acc ∨ ∃ p ∈ l, y = g p := by
  induction l generalizing acc with
  | nil => simp
  | cons p t ih =>
    simp only [List.foldl_cons, ih, mem_insertIfAbsent, List.mem_cons]
    constructor
    · rintro ((h | rfl) | ⟨q, hq, rfl⟩)
      · exact Or.inl h
      · exact Or.inr ⟨p, Or.inl rfl, rfl⟩
      · exact Or.inr ⟨q, Or.inr hq, rfl⟩
    · rintro (h | ⟨q, (rfl | hq), rfl⟩)
      · exact Or.inl (Or.inl h)
      · exact Or.inl (Or.inr rfl)
      · exact Or.inr ⟨q, hq, rfl⟩

theorem nodup_foldl_insert {α : Type} (g : α → String) (l : List α)
    (acc : List String) (h : acc.Nodup) :
    (l.foldl (fun a p => insertIfAbsent a (g p)) acc).Nodup := by
  induction l generalizing acc with
  | nil => exact h
  | cons p t ih => exact ih _ (nodup_insertIfAbsent _ _ h)

theorem mem_portsFold (rules : List Rule) (acc : List String) (y : String) :
    y ∈ rules.foldl
        (fun acc r => r.paths.foldl (fun a p => insertIfAbsent a (portStr p)) acc) acc ↔
      y ∈ acc ∨ ∃ r ∈ rules, ∃ p ∈ r.paths, y = portStr p := by
  induction rules generalizing acc with
  | nil => simp
  | cons r t ih =>
    simp only [List.foldl_cons, ih, mem_foldl_insert, List.mem_cons]
    constructor
    · rintro ((h | ⟨p, hp, rfl⟩) | ⟨r2, hr2, p, hp, rfl⟩)
      · exact Or.inl h
      · exact Or.inr ⟨r, Or.inl rfl, p, hp, rfl⟩
      · exact Or.inr ⟨r2, Or.inr hr2, p, hp, rfl⟩
    · rintro (h | ⟨r2, (rfl | hr2), p, hp, rfl⟩)
      · exact Or.inl (Or.inl h)
      · exact Or.inl (Or.inr ⟨p, hp, rfl⟩)
      · exact Or.inr ⟨r2, hr2, p, hp, rfl⟩

theorem nodup_portsFold (rules : List Rule) (acc : List String) (h : acc.Nodup) :
    (rules.foldl
        (fun acc r => r.paths.foldl (fun a p => insertIfAbsent a (portStr p)) acc) acc).Nodup := by
  induction rules generalizing acc with
  | nil => exact h
  | cons r t ih => exact ih _ (nodup_foldl_insert _ _ _ h)

theorem portsFold_no_paths (rules : List Rule) (acc : List String)
    (h : ∀ r ∈ rules, r.paths = []) :
    rules.foldl
        (fun acc r => r.paths.foldl (fun a p => insertIfAbsent a (portStr p)) acc) acc = acc := by
  induction rules generalizing acc with
  | nil => rfl
  | cons r t ih =>
    rw [List.foldl_cons, h r (by simp), ih _ (fun r2 h2 => h r2 (by simp [h2]))]
    rfl

theorem mem_portsList (it : Item) (y : String) :
    y ∈ portsList it ↔
      (it.hasTLS = true ∧ y = "443") ∨ ∃ r ∈ it.rules, ∃ p ∈ r.paths, y = portStr p := by
  unfold portsList
  cases h : it.hasTLS with
  | false => simp [mem_portsFold, h]
  | true =>
    rw [if_pos rfl, show insertIfAbsent [] "443" = ["443"] from rfl, mem_portsFold]
    simp

theorem portsList_nodup (it : Item) : (portsList it).Nodup := by
  unfold portsList
  apply nodup_portsFold
  cases it.hasTLS <;> simp [insertIfAbsent]

theorem portStr_ne_empty (p : HttpPath) : portStr p ≠ "" := by
  unfold portStr
  cases p.number with
  | none => simp
  | some n => exact natToString_ne_empty n

theorem mem_portsList_ne_empty (it : Item) (y : String) (h : y ∈ portsList it) :
    y ≠ "" := by
  rcases (mem_portsList it y).mp h with ⟨_, rfl⟩ | ⟨r, _, p, _, rfl⟩
  · simp
  · exact portStr_ne_empty p

theorem portsStr_ne_empty (it : Item) : portsStr it ≠ "" := by
  unfold portsStr
  split
  · simp
  · exact joinSep_ne_empty _ _ (fun x hx => mem_portsList_ne_empty it x hx) (by assumption)

/-! ### `splitCh` lemmas and the table round trip -/

theorem splitCh_cons (sep c : Char) (l : List Char) :
    splitCh sep (c :: l) =
      match splitCh sep l with
      | [] => [[c]]
      | h :: t => if c = sep then [] :: h :: t else (c :: h) :: t := rfl

theorem splitCh_ne_nil (sep : Char) (l : List Char) : splitCh sep l ≠ [] := by
  induction l with
  | nil => simp [splitCh]
  | cons c rest ih =>
    rw [splitCh_cons]
    cases h : splitCh sep rest with
    | nil => simp
    | cons a t =>
      by_cases hcs : c = sep <;> simp [hcs]

theorem splitCh_not_mem (sep : Char) (l : List Char) (h : sep ∉ l) :
    splitCh sep l = [l] := by
  induction l with
  | nil => rfl
  | cons c rest ih =>
    have hc : c ≠ sep := fun he => h (by simp [he])
    have hr : splitCh sep rest = [rest] := ih (fun hm => h (by simp [hm]))
    rw [splitCh_cons, hr]
    simp [hc]

theorem splitCh_sep_cons (sep : Char) (l : List Char) :
    splitCh sep (sep :: l) = [] :: splitCh sep l := by
  rw [splitCh_cons]
  cases h : splitCh sep l with
  | nil => exact absurd h (splitCh_ne_nil sep l)
  | cons a t => simp

theorem splitCh_append (sep : Char) (a b : List Char) (h : sep ∉ a) :
    splitCh sep (a ++ b) = (a ++ (splitCh sep b).headD []) :: (splitCh sep b).tail := by
  induction a with
  | nil =>
    simp only [List.nil_append]
    cases hb : splitCh sep b with
    | nil => exact absurd hb (splitCh_ne_nil sep b)
    | cons x t => simp
  | cons c a' ih =>
    have hc : c ≠ sep := fun he => h (by simp [he])
    have ha' : sep ∉ a' := fun hm => h (by simp [hm])
    rw [List.cons_append, splitCh_cons, ih ha']
    simp [hc]

theorem splitCh_row_aux (cells : List String) (hc : ∀ c ∈ cells, '|' ∉ c.data)
    (hne : cells ≠ []) :
    splitCh '|' (' ' :: (joinSep " | " cells).data ++ [' ', '|']) =
      cells.map (fun c => ' ' :: c.data ++ [' ']) ++ [[]] := by
  induction cells with
  | nil => exact absurd rfl hne
  | cons x t ih =>
    cases t with
    | nil =>
      have hx : '|' ∉ x.data := hc x (by simp)
      have hshape : ' ' :: (joinSep " | " [x]).data ++ [' ', '|'] =
          (' ' :: x.data ++ [' ']) ++ '|' :: ([] : List Char) := by
        simp [joinSep]
      rw [hshape, splitCh_append '|' _ _ (by simp [hx])]
      simp [splitCh]
    | cons y t2 =>
      have hx : '|' ∉ x.data := hc x (by simp)
      have hrest : ∀ c ∈ y :: t2, '|' ∉ c.data := fun c hm => hc c (by simp [hm])
      have hshape : ' ' :: (joinSep " | " (x :: y :: t2)).data ++ [' ', '|'] =
          (' ' :: x.data ++ [' ']) ++
            '|' :: (' ' :: (joinSep " | " (y :: t2)).data ++ [' ', '|']) := by
        rw [joinSep_cons " | " x (y :: t2) (by simp)]
        simp [String.data_append]
      rw [hshape, splitCh_append '|' _ _ (by simp [hx]),
        splitCh_sep_cons, ih hrest (by simp)]
      simp

theorem parseRow_renderRow (cells : List String) (hne : cells ≠ [])
    (hc : ∀ c ∈ cells, '|' ∉ c.data) :
    parseRowLine (renderRow cells).data = cells := by
  have hdata : (renderRow cells).data =
      '|' :: (' ' :: (joinSep " | " cells).data ++ [' ', '|']) := by
    unfold renderRow
    simp [String.data_append]
  unfold parseRowLine
  rw [hdata, splitCh_sep_cons, splitCh_row_aux cells hc hne]
  have h1 : (([] :: (cells.map (fun c => ' ' :: c.data ++ [' ']) ++ [[]])).drop 1) =
      cells.map (fun c => ' ' :: c.data ++ [' ']) ++ [[]] := rfl
  rw [h1, List.dropLast_concat, List.map_map]
  have hfun : ∀ c ∈ cells,
      ((fun seg : List Char => (⟨(seg.drop 1).dropLast⟩ : String)) ∘
        (fun c : String => ' ' :: c.data ++ [' '])) c = id c := by
    intro c _
    simp only [Function.comp_apply, id]
    have h2 : (' ' :: c.data ++ [' ']).drop 1 = c.data ++ [' '] := rfl
    rw [h2, List.dropLast_concat]
  rw [List.map_congr_left hfun, List.map_id]

theorem splitCh_nl_join (lines : List String) (hne : lines ≠ [])
    (h : ∀ l ∈ lines, '\n' ∉ l.data) :
    splitCh '\n' (joinSep "\n" lines).data = lines.map String.data := by
  induction lines with
  | nil => exact absurd rfl hne
  | cons x t ih =>
    cases t with
    | nil =>
      simpa [joinSep] using splitCh_not_mem '\n' x.data (h x (by simp))
    | cons y t2 =>
      have hx : '\n' ∉ x.data := h x (by simp)
      have hrest : ∀ l ∈ y :: t2, '\n' ∉ l.data := fun l hm => h l (by simp [hm])
      have hshape : (joinSep "\n" (x :: y :: t2)).data =
          x.data ++ '\n' :: (joinSep "\n" (y :: t2)).data := by
        rw [joinSep_cons "\n" x (y :: t2) (by simp)]
        simp [String.data_append]
      rw [hshape, splitCh_append '\n' _ _ hx, splitCh_sep_cons, ih (by simp) hrest]
      simp

theorem renderRow_nl_free (cells : List String) (h : ∀ c ∈ cells, '\n' ∉ c.data) :
    '\n' ∉ (renderRow cells).data := by
  unfold renderRow
  simp only [String.data_append, List.mem_append]
  rintro ((hm | hm) | hm)
  · simp at hm
  · rcases mem_joinSep_data _ _ _ hm with hs | ⟨x, hx, hcm⟩
    · simp at hs
    · exact h x hx hcm
  · simp at hm

theorem generate_eq_joinSep (rows : List (List String)) (cname : String) :
    generate_markdown_table rows cname =
      joinSep "\n" (("# Ingress Summary for Cluster: " ++ cname) :: "" ::
        renderRow headerRow :: separatorLine :: (rows.map renderRow ++ [""])) := by
  have hlist : ("# Ingress Summary for Cluster: " ++ cname) :: "" ::
        renderRow headerRow :: separatorLine :: (rows.map renderRow ++ [""]) =
      (("# Ingress Summary for Cluster: " ++ cname) :: "" ::
        renderRow headerRow :: separatorLine :: rows.map renderRow) ++ [""] := by
    simp
  rw [hlist, joinSep_append_singleton "\n" "" _ (by simp),
    joinSep_cons "\n" ("# Ingress Summary for Cluster: " ++ cname)
      ("" :: renderRow headerRow :: separatorLine :: rows.map renderRow) (by simp),
    joinSep_cons "\n" ""
      (renderRow headerRow :: separatorLine :: rows.map renderRow) (by simp)]
  unfold generate_markdown_table renderTable
  apply String.ext
  simp [String.data_append]

theorem parseReport_roundtrip (rows : List (List String)) (cname : String)
    (hcn : '\n' ∉ cname.data)
    (hr : ∀ r ∈ rows, r ≠ [] ∧ ∀ c ∈ r, '|' ∉ c.data ∧ '\n' ∉ c.data) :
    parseReport (generate_markdown_table rows cname) = rows := by
  unfold parseReport
  rw [generate_eq_joinSep]
  have hLfree : ∀ l ∈ ("# Ingress Summary for Cluster: " ++ cname) :: "" ::
      renderRow headerRow :: separatorLine :: (rows.map renderRow ++ [""]),
      '\n' ∉ l.data := by
    intro l hl
    simp only [List.mem_cons, List.mem_append, List.mem_singleton] at hl
    rcases hl with rfl | rfl | rfl | rfl | hl | rfl | hfalse
    · simp only [String.data_append, List.mem_append]
      rintro (hm | hm)
      · revert hm
        decide
      · exact hcn hm
    · simp
    · decide
    · decide
    · rcases List.mem_map.mp hl with ⟨r, hrm, rfl⟩
      exact renderRow_nl_free r (fun c hc => ((hr r hrm).2 c hc).2)
    · simp
    · exact absurd hfalse (List.not_mem_nil l)
  rw [splitCh_nl_join _ (by simp) hLfree]
  have h4 : ((("# Ingress Summary for Cluster: " ++ cname) :: "" ::
        renderRow headerRow :: separatorLine ::
          (rows.map renderRow ++ [""])).map String.data).drop 4 =
      (rows.map renderRow).map String.data ++ [[]] := by
    simp
  rw [h4, List.dropLast_concat, List.map_map, List.map_map]
  have hfun : ∀ r ∈ rows, ((parseRowLine ∘ String.data) ∘ renderRow) r = id r := by
    intro r hrm
    simp only [Function.comp_apply, id]
    exact parseRow_renderRow r (hr r hrm).1 (fun c hc => ((hr r hrm).2 c hc).1)
  rw [List.map_congr_left hfun, List.map_id]

/-! ### Orchestrator lemmas -/

/-- The names of the listing entries the per-file loop processes, in order. -/
def matchingNames (files : List FileEntry) : List String :=
  (files.map (fun f => f.name)).filter (fun n => strEndsWith n "_ingress.json")

theorem runFiles_cons (f : FileEntry) (rest : List FileEntry) (acc : Accum) :
    runFiles (f :: rest) acc =
      if strEndsWith f.name "_ingress.json" then
        match read_json_file f with
        | .error e => .error e
        | .ok d => runFiles rest (stepFile acc f.name d)
      else runFiles rest acc := rfl

theorem runIssues_cons (f : FileEntry) (rest : List FileEntry) :
    runIssues (f :: rest) =
      if strEndsWith f.name "_ingress.json" then
        match read_json_file f with
        | .error e => .error e
        | .ok d =>
          match runIssues rest with
          | .error e => .error e
          | .ok ls => .ok (issueLinesFor (clusterName f.name) d ++ ls)
      else runIssues rest := rfl

theorem runFiles_ok (files : List FileEntry) (acc : Accum)
    (hp : ∀ f ∈ files, strEndsWith f.name "_ingress.json" = true →
      ∃ d, f.content = .parsed d) :
    ∃ acc', runFiles files acc = .ok acc' ∧
      acc'.processedFiles = acc.processedFiles ++ matchingNames files ∧
      acc'.reports.map Prod.fst = acc.reports.map Prod.fst ++
        (matchingNames files).map (fun n => clusterName n ++ "_ingress.md") ∧
      (∀ c, c ∈ acc'.processedClusters ↔
        c ∈ acc.processedClusters ∨ ∃ n ∈ matchingNames files, clusterGroup n = c) := by
  induction files generalizing acc with
  | nil =>
    refine ⟨acc, rfl, by simp [matchingNames], by simp [matchingNames], ?_⟩
    intro c
    simp [matchingNames]
  | cons f rest ih =>
    by_cases hm : strEndsWith f.name "_ingress.json" = true
    · obtain ⟨d, hd⟩ := hp f (by simp) hm
      have hread : read_json_file f = .ok d := by
        unfold read_json_file
        rw [hd]
      have hstep : runFiles (f :: rest) acc = runFiles rest (stepFile acc f.name d) := by
        rw [runFiles_cons, if_pos hm, hread]
      have hmn : matchingNames (f :: rest) = f.name :: matchingNames rest := by
        simp only [matchingNames, List.map_cons]
        rw [List.filter_cons_of_pos]
        exact hm
      obtain ⟨acc', hrun, hpf, hrp, hpc⟩ :=
        ih (stepFile acc f.name d) (fun g hg => hp g (by simp [hg]))
      refine ⟨acc', by rw [hstep, hrun], ?_, ?_, ?_⟩
      · rw [hpf, hmn]
        simp [stepFile, List.append_assoc]
      · rw [hrp, hmn]
        simp [stepFile, List.append_assoc]
      · intro c
        rw [hpc c, hmn]
        simp only [stepFile, mem_insertIfAbsent, List.mem_cons]
        constructor
        · rintro ((h | rfl) | ⟨n, hn, rfl⟩)
          · exact Or.inl h
          · exact Or.inr ⟨f.name, Or.inl rfl, rfl⟩
          · exact Or.inr ⟨n, Or.inr hn, rfl⟩
        · rintro (h | ⟨n, (rfl | hn), rfl⟩)
          · exact Or.inl (Or.inl h)
          · exact Or.inl (Or.inr rfl)
          · exact Or.inr ⟨n, hn, rfl⟩
    · have hstep : runFiles (f :: rest) acc = runFiles rest acc := by
        rw [runFiles_cons, if_neg hm]
      have hnames : matchingNames (f :: rest) = matchingNames rest := by
        simp only [matchingNames, List.map_cons]
        rw [List.filter_cons_of_neg (by simpa using hm)]
      obtain ⟨acc', hrun, hpf, hrp, hpc⟩ := ih acc (fun g hg => hp g (by simp [hg]))
      exact ⟨acc', by rw [hstep, hrun], by rw [hnames]; exact hpf,
        by rw [hnames]; exact hrp, by rw [hnames]; exact hpc⟩

theorem runIssues_ok (files : List FileEntry)
    (hp : ∀ f ∈ files, strEndsWith f.name "_ingress.json" = true →
      ∃ d, f.content = .parsed d) :
    ∃ ls, runIssues files = .ok ls := by
  induction files with
  | nil => exact ⟨[], rfl⟩
  | cons f rest ih =>
    obtain ⟨ls, hls⟩ := ih (fun g hg => hp g (by simp [hg]))
    by_cases hm : strEndsWith f.name "_ingress.json" = true
    · obtain ⟨d, hd⟩ := hp f (by simp) hm
      refine ⟨issueLinesFor (clusterName f.name) d ++ ls, ?_⟩
      rw [runIssues_cons, if_pos hm,
        show read_json_file f = .ok d by unfold read_json_file; rw [hd], hls]
    · refine ⟨ls, ?_⟩
      rw [runIssues_cons, if_neg hm]
      exact hls

theorem process_some_ok (dirName : String) (files : List FileEntry)
    (acc : Accum) (ls : List String)
    (hrun : runFiles files ⟨[], [], []⟩ = .ok acc)
    (hls : runIssues files = .ok ls) :
    process_all_clusters dirName (some files) = .ok
      { processedFiles := acc.processedFiles
        processedClusters := acc.processedClusters
        reports := acc.reports
        summaryLine :=
          if (EXPECTED_CLUSTERS.filter fun c => !(acc.processedClusters.contains c)) = []
          then confirmLine
          else warnLine (EXPECTED_CLUSTERS.filter fun c => !(acc.processedClusters.contains c))
        issueLines := ls } := by
  unfold process_all_clusters
  simp only [hrun, hls]

theorem map_getD_eq_filterMap (l : List Rule) (h : ∀ r ∈ l, (r.host).isSome) :
    l.map (fun r => r.host.getD "N/A") = l.filterMap (fun r => r.host) := by
  induction l with
  | nil => rfl
  | cons r t ih =>
    cases hr : r.host with
    | none => exact absurd (h r (by simp)) (by simp [hr])
    | some a =>
      simp [List.filterMap_cons, hr, ih (fun g hg => h g (by simp [hg]))]

theorem containsSubstr_missingDirMessage (dirName : String) :
    containsSubstr (missingDirMessage dirName) dirName = true := by
  unfold containsSubstr missingDirMessage
  apply decide_eq_true
  refine ⟨"Error: [Errno 2] No such file or directory: '".data,
    ("'. The directory '" ++ dirName ++
      "' does not exist. Please check the date or directory path.").data, ?_⟩
  simp [String.data_append]

/-! ### The claims -/

/-- Claim C1: for every item the ports string is non-empty; with no TLS and no
HTTP paths it equals `"80"`; with TLS and no paths it contains `"443"`; with
explicit backend port numbers on every path and no TLS, the joined collection
is duplicate-free and holds exactly the decimal renderings of those numbers
(the ports string being their join), each exactly once even when the input
repeats them. -/
theorem C1_ports (it : Item) :
    portsStr it ≠ "" ∧
    (it.hasTLS = false → (∀ r ∈ it.rules, r.paths = []) → portsStr it = "80") ∧
    (it.hasTLS = true → (∀ r ∈ it.rules, r.paths = []) →
      containsSubstr (portsStr it) "443" = true) ∧
    (it.hasTLS = false → (∀ r ∈ it.rules, ∀ p ∈ r.paths, (p.number).isSome) →
      (portsList it).Nodup ∧
      (∀ s, s ∈ portsList it ↔
        ∃ r ∈ it.rules, ∃ p ∈ r.paths, ∃ n, p.number = some n ∧ s = toString n) ∧
      (portsList it ≠ [] → portsStr it = joinSep ", " (portsList it))) := by
  refine ⟨portsStr_ne_empty it, ?_, ?_, ?_⟩
  · intro h hnp
    have hpl : portsList it = [] := by
      unfold portsList
      rw [h, if_neg (by simp)]
      exact portsFold_no_paths _ _ hnp
    unfold portsStr
    rw [if_pos hpl]
  · intro h hnp
    have hpl : portsList it = ["443"] := by
      unfold portsList
      rw [h, if_pos rfl, show insertIfAbsent [] "443" = ["443"] from rfl]
      exact portsFold_no_paths _ _ hnp
    unfold portsStr
    rw [if_neg (by rw [hpl]; simp), hpl]
    decide
  · intro h hall
    refine ⟨portsList_nodup it, ?_, ?_⟩
    · intro s
      rw [mem_portsList]
      constructor
      · rintro (⟨htls, rfl⟩ | ⟨r, hr, p, hp, rfl⟩)
        · rw [h] at htls
          cases htls
        · obtain ⟨n, hn⟩ := Option.isSome_iff_exists.mp (hall r hr p hp)
          exact ⟨r, hr, p, hp, n, hn, by unfold portStr; rw [hn]⟩
      · rintro ⟨r, hr, p, hp, n, hn, rfl⟩
        exact Or.inr ⟨r, hr, p, hp, by unfold portStr; rw [hn]⟩
    · intro hne
      unfold portsStr
      rw [if_neg hne]

/-- Claim C1 witness: the four parts at concrete items — an arbitrary item,
an item with no TLS and no paths (ports `"80"`), a TLS item with no paths
(ports contain `"443"`), and a no-TLS item whose paths carry the explicit
ports 7, 7, 9. -/
theorem C1_ports_witness :
    portsStr ⟨"ns", "i1", false, [], []⟩ ≠ "" ∧
    portsStr ⟨"ns", "i2", false, [⟨some "h", []⟩], []⟩ = "80" ∧
    containsSubstr (portsStr ⟨"ns", "i3", true, [], []⟩) "443" = true ∧
    ((portsList ⟨"ns", "i4", false, [⟨none, [⟨some 7⟩, ⟨some 7⟩, ⟨some 9⟩]⟩], []⟩).Nodup ∧
      (∀ s, s ∈ portsList ⟨"ns", "i4", false, [⟨none, [⟨some 7⟩, ⟨some 7⟩, ⟨some 9⟩]⟩], []⟩ ↔
        ∃ r ∈ (⟨"ns", "i4", false, [⟨none, [⟨some 7⟩, ⟨some 7⟩, ⟨some 9⟩]⟩], []⟩ : Item).rules,
          ∃ p ∈ r.paths, ∃ n, p.number = some n ∧ s = toString n) ∧
      (portsList ⟨"ns", "i4", false, [⟨none, [⟨some 7⟩, ⟨some 7⟩, ⟨some 9⟩]⟩], []⟩ ≠ [] →
        portsStr ⟨"ns", "i4", false, [⟨none, [⟨some 7⟩, ⟨some 7⟩, ⟨some 9⟩]⟩], []⟩ =
          joinSep ", " (portsList ⟨"ns", "i4", false, [⟨none, [⟨some 7⟩, ⟨some 7⟩, ⟨some 9⟩]⟩], []⟩))) :=
  ⟨(C1_ports _).1,
   (C1_ports _).2.1 rfl (by decide),
   (C1_ports _).2.2.1 rfl (by decide),
   (C1_ports _).2.2.2 rfl (by decide)⟩

/-- Claim C2: the missing-ports warning branch is unreachable — the condition
`not ports_str` is false for every item whatsoever, thanks to the
default-to-`"80"` fallback. -/
theorem C2_ports_warning_dead (it : Item) : portsWarn it = false := by
  unfold portsWarn
  simp only [beq_eq_false_iff_ne, ne_eq]
  exact portsStr_ne_empty it

/-- Claim C3: the missing-hosts warning fires iff the joined hosts string is
empty or contains `"N/A"` anywhere; the missing-address warning fires iff the
joined address string is empty; in particular a non-empty address made only
of placeholders does not fire it. -/
theorem C3_warning_conditions (it : Item) :
    (hostsWarn it = true ↔
      (hostsStr it = "" ∨ containsSubstr (hostsStr it) "N/A" = true)) ∧
    (addressWarn it = true ↔ addressStr it = "") ∧
    (addressStr it ≠ "" → addressWarn it = false) := by
  refine ⟨?_, ?_, ?_⟩
  · unfold hostsWarn
    simp only [Bool.or_eq_true, beq_iff_eq]
    exact or_comm
  · unfold addressWarn
    simp only [beq_iff_eq]
  · intro h
    unfold addressWarn
    simp only [beq_eq_false_iff_ne, ne_eq]
    exact h

/-- Claim C3 witness: an item whose load-balancer list has one entry with no
`ip` — the address is the non-empty placeholder string `"N/A"`, and the
missing-address warning does not fire. -/
theorem C3_warning_conditions_witness :
    addressWarn ⟨"ns", "w", false, [], [⟨none⟩]⟩ = false :=
  (C3_warning_conditions _).2.2 (by decide)

/-- Claim C4 counterexample: an item with one rule whose `host` is present
but the empty string — the joined hosts string is empty although the rule
list is not, refuting "empty iff the source list is empty". -/
theorem C4_counterexample :
    hostsStr ⟨"ns", "x", false, [⟨some "", []⟩], []⟩ = "" ∧
    (⟨"ns", "x", false, [⟨some "", []⟩], []⟩ : Item).rules ≠ [] := by
  constructor
  · rfl
  · decide

/-- Claim C4 (amended): every missing host/ip contributes the literal
placeholder `"N/A"` to the joined string; and, provided no rule carries an
explicitly empty host (resp. no load-balancer entry an explicitly empty ip),
the joined hosts (resp. address) string is empty iff the source list is
empty. -/
theorem C4_placeholders (it : Item) :
    hostsStr it = joinSep ", " (it.rules.map (fun r => r.host.getD "N/A")) ∧
    addressStr it = joinSep ", " (it.lb.map (fun e => e.ip.getD "N/A")) ∧
    ((∀ r ∈ it.rules, r.host ≠ some "") → (hostsStr it = "" ↔ it.rules = [])) ∧
    ((∀ e ∈ it.lb, e.ip ≠ some "") → (addressStr it = "" ↔ it.lb = [])) := by
  refine ⟨rfl, rfl, ?_, ?_⟩
  · intro hnz
    unfold hostsStr
    rw [joinSep_eq_empty_iff]
    · simp
    · intro x hx
      rcases List.mem_map.mp hx with ⟨r, hr, rfl⟩
      cases hh : r.host with
      | none => simp
      | some a =>
        simp only [Option.getD_some]
        intro he
        exact hnz r hr (by rw [hh, he])
  · intro hnz
    unfold addressStr
    rw [joinSep_eq_empty_iff]
    · simp
    · intro x hx
      rcases List.mem_map.mp hx with ⟨e, he, rfl⟩
      cases hh : e.ip with
      | none => simp
      | some a =>
        simp only [Option.getD_some]
        intro hee
        exact hnz e he (by rw [hh, hee])

/-- Claim C4 witness: the amended equivalences at an item with one non-empty
host and one non-empty ip. -/
theorem C4_placeholders_witness :
    (hostsStr ⟨"ns", "w", false, [⟨some "h", []⟩], [⟨some "1.2.3.4"⟩]⟩ = "" ↔
      (⟨"ns", "w", false, [⟨some "h", []⟩], [⟨some "1.2.3.4"⟩]⟩ : Item).rules = []) ∧
    (addressStr ⟨"ns", "w", false, [⟨some "h", []⟩], [⟨some "1.2.3.4"⟩]⟩ = "" ↔
      (⟨"ns", "w", false, [⟨some "h", []⟩], [⟨some "1.2.3.4"⟩]⟩ : Item).lb = []) :=
  ⟨(C4_placeholders _).2.2.1 (by decide), (C4_placeholders _).2.2.2 (by decide)⟩

/-- Claim C5: when the rule list is non-empty and every rule carries a host,
the hosts value is exactly those host strings joined with `", "` in rule
order; when the rule list is empty, the hosts value is the empty string. -/
theorem C5_hosts_exact (it : Item) :
    (it.rules ≠ [] → (∀ r ∈ it.rules, (r.host).isSome) →
      hostsStr it = joinSep ", " (it.rules.filterMap (fun r => r.host))) ∧
    (it.rules = [] → hostsStr it = "") := by
  constructor
  · intro _ hall
    unfold hostsStr
    rw [map_getD_eq_filterMap it.rules hall]
  · intro h
    unfold hostsStr
    rw [h]
    rfl

/-- Claim C5 witness: two rules with hosts `"a.example"` and `"b.example"` —
the hosts value is their comma join in order; and an item with no rules has
an empty hosts value. -/
theorem C5_hosts_exact_witness :
    hostsStr ⟨"ns", "w", false, [⟨some "a.example", []⟩, ⟨some "b.example", []⟩], []⟩ =
      joinSep ", "
        ((⟨"ns", "w", false, [⟨some "a.example", []⟩, ⟨some "b.example", []⟩], []⟩ : Item).rules.filterMap
          (fun r => r.host)) ∧
    hostsStr ⟨"ns", "e", false, [], []⟩ = "" :=
  ⟨(C5_hosts_exact _).1 (by decide) (by decide), (C5_hosts_exact _).2 rfl⟩

/-- Claim C6: the orchestrator processes exactly the listing entries whose
names end in `_ingress.json`; each processed cluster name is the filename
portion before the first underscore (giving the report path
`{cluster_name}_ingress.md`) and each processed group is that name's portion
before the first hyphen; and the summary line is the missing-clusters warning
iff the set difference (expected minus processed) is non-empty, and the
all-processed confirmation otherwise. -/
theorem C6_orchestrator (dirName : String) (files : List FileEntry)
    (hp : ∀ f ∈ files, strEndsWith f.name "_ingress.json" = true →
      ∃ d, f.content = .parsed d) :
    ∃ o, process_all_clusters dirName (some files) = .ok o ∧
      o.processedFiles = matchingNames files ∧
      o.reports.map Prod.fst =
        (matchingNames files).map (fun n => clusterName n ++ "_ingress.md") ∧
      (∀ c, c ∈ o.processedClusters ↔ ∃ n ∈ matchingNames files, clusterGroup n = c) ∧
      (o.summaryLine =
          warnLine (EXPECTED_CLUSTERS.filter fun c => !(o.processedClusters.contains c)) ↔
        (EXPECTED_CLUSTERS.filter fun c => !(o.processedClusters.contains c)) ≠ []) ∧
      ((EXPECTED_CLUSTERS.filter fun c => !(o.processedClusters.contains c)) = [] →
        o.summaryLine = confirmLine) := by
  obtain ⟨acc, hrun, hpf, hrp, hpc⟩ := runFiles_ok files ⟨[], [], []⟩ hp
  obtain ⟨ls, hls⟩ := runIssues_ok files hp
  refine ⟨_, process_some_ok dirName files acc ls hrun hls, ?_, ?_, ?_, ?_, ?_⟩
  · show acc.processedFiles = matchingNames files
    rw [hpf]
    rfl
  · show acc.reports.map Prod.fst = _
    rw [hrp]
    rfl
  · intro c
    show c ∈ acc.processedClusters ↔ _
    rw [hpc c]
    simp
  · show (if (EXPECTED_CLUSTERS.filter fun c => !(acc.processedClusters.contains c)) = []
        then confirmLine
        else warnLine (EXPECTED_CLUSTERS.filter fun c => !(acc.processedClusters.contains c))) =
          warnLine (EXPECTED_CLUSTERS.filter fun c => !(acc.processedClusters.contains c)) ↔
      (EXPECTED_CLUSTERS.filter fun c => !(acc.processedClusters.contains c)) ≠ []
    by_cases hm : (EXPECTED_CLUSTERS.filter fun c => !(acc.processedClusters.contains c)) = []
    · rw [if_pos hm, hm]
      constructor
      · intro hcw
        exact absurd hcw (by decide)
      · intro hne
        exact absurd rfl hne
    · rw [if_neg hm]
      exact iff_of_true rfl hm
  · intro hm
    show (if (EXPECTED_CLUSTERS.filter fun c => !(acc.processedClusters.contains c)) = []
        then confirmLine
        else warnLine (EXPECTED_CLUSTERS.filter fun c => !(acc.processedClusters.contains c))) =
      confirmLine
    rw [if_pos hm]

/-- Claim C6 witness: a listing with snapshots for `cluster1-a` and
`cluster2-b` (plus nothing else), both parseable — the run succeeds and all
the orchestrator facts hold for it. -/
theorem C6_orchestrator_witness :
    ∃ o, process_all_clusters "info_cache_20251012"
        (some [⟨"cluster1-a_ingress.json", .parsed ⟨[]⟩⟩,
               ⟨"cluster2-b_ingress.json", .parsed ⟨[]⟩⟩]) = .ok o ∧
      o.processedFiles = matchingNames
        [⟨"cluster1-a_ingress.json", .parsed ⟨[]⟩⟩,
         ⟨"cluster2-b_ingress.json", .parsed ⟨[]⟩⟩] ∧
      o.reports.map Prod.fst =
        (matchingNames [⟨"cluster1-a_ingress.json", .parsed ⟨[]⟩⟩,
          ⟨"cluster2-b_ingress.json", .parsed ⟨[]⟩⟩]).map
          (fun n => clusterName n ++ "_ingress.md") ∧
      (∀ c, c ∈ o.processedClusters ↔
        ∃ n ∈ matchingNames [⟨"cluster1-a_ingress.json", .parsed ⟨[]⟩⟩,
          ⟨"cluster2-b_ingress.json", .parsed ⟨[]⟩⟩], clusterGroup n = c) ∧
      (o.summaryLine =
          warnLine (EXPECTED_CLUSTERS.filter fun c => !(o.processedClusters.contains c)) ↔
        (EXPECTED_CLUSTERS.filter fun c => !(o.processedClusters.contains c)) ≠ []) ∧
      ((EXPECTED_CLUSTERS.filter fun c => !(o.processedClusters.contains c)) = [] →
        o.summaryLine = confirmLine) :=
  C6_orchestrator "info_cache_20251012"
    [⟨"cluster1-a_ingress.json", .parsed ⟨[]⟩⟩,
     ⟨"cluster2-b_ingress.json", .parsed ⟨[]⟩⟩]
    (by
      intro f hf _
      simp only [List.mem_cons, List.mem_singleton] at hf
      rcases hf with rfl | rfl | hfalse
      · exact ⟨⟨[]⟩, rfl⟩
      · exact ⟨⟨[]⟩, rfl⟩
      · exact absurd hfalse (List.not_mem_nil f))

/-- Claim C7: the driver handles exactly the missing-input-directory failure,
answering with a message that names the directory (no stack trace); a JSON
decode error or a permission error from the run propagates out unchanged. -/
theorem C7_error_handling (dirName : String) (fs : Option (List FileEntry)) :
    mainDriver dirName none = .ok (.handledError (missingDirMessage dirName)) ∧
    containsSubstr (missingDirMessage dirName) dirName = true ∧
    (∀ p, process_all_clusters dirName fs = .error (.jsonDecodeError p) →
      mainDriver dirName fs = .error (.jsonDecodeError p)) ∧
    (∀ p, process_all_clusters dirName fs = .error (.permissionError p) →
      mainDriver dirName fs = .error (.permissionError p)) := by
  refine ⟨rfl, containsSubstr_missingDirMessage dirName, ?_, ?_⟩
  · intro p h
    unfold mainDriver
    rw [h]
  · intro p h
    unfold mainDriver
    rw [h]

/-- Claim C7 witness: a missing directory is handled with the message naming
it, while a malformed snapshot and an unreadable snapshot both escape the
driver as errors. -/
theorem C7_error_handling_witness :
    mainDriver "info_cache_20240101" none =
      .ok (.handledError (missingDirMessage "info_cache_20240101")) ∧
    containsSubstr (missingDirMessage "info_cache_20240101") "info_cache_20240101" = true ∧
    mainDriver "d" (some [⟨"x_ingress.json", .malformed⟩]) =
      .error (.jsonDecodeError "x_ingress.json") ∧
    mainDriver "d" (some [⟨"y_ingress.json", .unreadable⟩]) =
      .error (.permissionError "y_ingress.json") :=
  ⟨(C7_error_handling "info_cache_20240101" none).1,
   (C7_error_handling "info_cache_20240101" none).2.1,
   (C7_error_handling "d" (some [⟨"x_ingress.json", .malformed⟩])).2.2.1
     "x_ingress.json" rfl,
   (C7_error_handling "d" (some [⟨"y_ingress.json", .unreadable⟩])).2.2.2
     "y_ingress.json" rfl⟩

/-- Claim C8: every record the extractor produces has exactly 5 fields
(namespace, name, hosts, address, ports); each field is a string by the very
type of the embedding (`List String`), mirroring the Python list of five
string expressions. -/
theorem C8_record_shape (j : Document) :
    ∀ rec ∈ extract_ingress_info j, rec.length = 5 := by
  intro rec hrec
  rcases List.mem_map.mp hrec with ⟨it, _, rfl⟩
  rfl

/-- Claim C8 witness: the record of a one-item document has length 5. -/
theorem C8_record_shape_witness :
    (["ns", "nm", "", "", "80"] : List String).length = 5 :=
  C8_record_shape ⟨[⟨"ns", "nm", false, [], []⟩]⟩ ["ns", "nm", "", "", "80"] (by decide)

/-- Claim C9 counterexample: a record with a cell containing a literal pipe
(`"a | b"`) is written unescaped, so parsing the rendered table does not
recover the cells verbatim — the unconditional round trip fails. -/
theorem C9_counterexample :
    parseReport (generate_markdown_table [["a | b", "x", "y", "z", "w"]] "c") ≠
      [["a | b", "x", "y", "z", "w"]] := by
  decide

/-- Claim C9 (amended): the round trip — rendering a record sequence to the
pipe table and parsing the table back recovers every cell verbatim — holds
for every sequence of non-empty rows whose cells contain no pipe and no
newline (cluster name newline-free); cells are written literally with no
truncation or escaping, which is exactly why a pipe-carrying cell breaks it. -/
theorem C9_roundtrip (rows : List (List String)) (cname : String)
    (hcn : '\n' ∉ cname.data)
    (hr : ∀ r ∈ rows, r ≠ [] ∧ ∀ c ∈ r, '|' ∉ c.data ∧ '\n' ∉ c.data) :
    parseReport (generate_markdown_table rows cname) = rows :=
  parseReport_roundtrip rows cname hcn hr

/-- Claim C9 witness: a two-row table whose cells carry inner spaces, commas
and empty strings round-trips verbatim. -/
theorem C9_roundtrip_witness :
    parseReport (generate_markdown_table
        [["ns 1", "ing", "h1.x, h2.y", "N/A", "443, 80"],
         ["n2", "i2", "", "", "80"]] "cl-1") =
      [["ns 1", "ing", "h1.x, h2.y", "N/A", "443, 80"],
       ["n2", "i2", "", "", "80"]] :=
  C9_roundtrip _ "cl-1" (by decide) (by decide)

/-- Claim C10: the filenames `a_ingress.json` and `a_b_ingress.json` both
match the suffix and both derive the cluster name `a`, so their reports go to
the same output path `a_ingress.md` and the report written later overwrites
the one written earlier. -/
theorem C10_overwrite :
    clusterName "a_ingress.json" = clusterName "a_b_ingress.json" ∧
    strEndsWith "a_ingress.json" "_ingress.json" = true ∧
    strEndsWith "a_b_ingress.json" "_ingress.json" = true ∧
    reportsOf (process_all_clusters "d"
        (some [⟨"a_ingress.json", .parsed ⟨[]⟩⟩,
               ⟨"a_b_ingress.json", .parsed ⟨[⟨"ns", "x", false, [], []⟩]⟩⟩])) =
      [("a_ingress.md", generate_markdown_table (extract_ingress_info ⟨[]⟩) "a"),
       ("a_ingress.md",
        generate_markdown_table (extract_ingress_info ⟨[⟨"ns", "x", false, [], []⟩]⟩) "a")] ∧
    applyWrites (reportsOf (process_all_clusters "d"
        (some [⟨"a_ingress.json", .parsed ⟨[]⟩⟩,
               ⟨"a_b_ingress.json", .parsed ⟨[⟨"ns", "x", false, [], []⟩]⟩⟩]))) =
      [("a_ingress.md",
        generate_markdown_table (extract_ingress_info ⟨[⟨"ns", "x", false, [], []⟩]⟩) "a")] ∧
    generate_markdown_table (extract_ingress_info ⟨[]⟩) "a" ≠
      generate_markdown_table (extract_ingress_info ⟨[⟨"ns", "x", false, [], []⟩]⟩) "a" := by
  decide

end ClusterReports
